import Mathlib

/-!
Verification of the glmpca-py core (`glmpca/glmpca.py`) against its
natural-language specification.

The source program is embedded shallowly:
* numpy matrices given as Python lists of rows become `List (List ℚ)`;
  fixed-shape matrices inside the optimizer become Mathlib `Matrix (Fin _) (Fin _) ℚ`;
* float arithmetic is modelled over `ℚ` (exact values) except where IEEE
  non-finiteness is itself the behaviour under study, where a four-point
  extended type `XR` (finite / +inf / -inf / nan) is used;
* the external collaborators of spec §6 (dense linear algebra: `lstsq`, `svd`,
  `argsort`; special functions: `log`, `exp`, `digamma`, `trigamma`) are
  parameters of the embedded functions, exactly as the code delegates them;
* raised `GlmpcaError`s become `Except GErr`.
-/

open Matrix

/-! ## Shared list-matrix helpers (numpy helpers at the top of glmpca.py) -/

/-- `ncol(x) = x.shape[1]` for a list-of-rows matrix. -/
def ncolL (m : List (List ℚ)) : ℕ := m.headI.length

/-- `nrow(x) = x.shape[0]` for a list-of-rows matrix. -/
def nrowL (m : List (List ℚ)) : ℕ := m.length

/-- `colMeans(x) = x.mean(axis=0)`: per-column mean over the rows. -/
def colMeansL (m : List (List ℚ)) : List ℚ :=
  (List.range (ncolL m)).map (fun j => ((m.map (fun r => r.getD j 0)).sum) / (nrowL m : ℚ))

/-- The four GLM family names accepted by the program
(`{"poi","nb","mult","bern"}`). -/
inductive Fam where
  | poi | nb | mult | bern
  deriving DecidableEq

/-- The `GlmpcaError` variants raised by the program, one constructor per
distinct raise site relevant to the claims. -/
inductive GErr where
  | rangeNeg    -- "for count data, the minimum value must be >=0"
  | zeroRow     -- "Some rows were all zero, please remove them."
  | bernRange   -- "for Bernoulli model, the maximum value must be <=1"
  | dimX        -- "X rows must match columns of Y"
  | dimZ        -- "Z rows must match rows of Y"
  | dimSz       -- "size factor must have length equal to columns of Y"
  | missingTheta -- "Negative binomial dispersion parameter 'nb_theta' must be specified"
  deriving DecidableEq

/-! ## GlmpcaFamily.__init__ (glmpca.py lines 67-100)

Only the data fields the claims are about are embedded; the function-valued
fields (`vfunc`, `ilfunc`, `hfunc`, `rfunc`) are the statsmodels GLM
primitives, which the spec treats as external collaborators. -/

/-- The data carried by a freshly constructed `GlmpcaFamily` object. -/
structure FamObj where
  glm_family : Fam
  nb_theta : Option ℚ
  deriving DecidableEq

/-- `GlmpcaFamily.__init__`: stores `glm_family` and `nb_theta`, raises when
family is `nb` and no dispersion is given, and then (source lines 94-100,
the "define variables define later" block) re-assigns `self.nb_theta = None`,
so the constructed object's `nb_theta` field is always `None`. -/
def mkGlmpcaFamily (glm_family : Fam) (nb_theta : Option ℚ) : Except GErr FamObj :=
  match glm_family, nb_theta with
  | Fam.nb, none => Except.error GErr.missingTheta
  | f, _ => Except.ok { glm_family := f, nb_theta := none }

/-! ## GlmPCA.__init__ (glmpca.py lines 219-301) -/

/-- The data stored on a `GlmPCA` object by its constructor. -/
structure GlmPCAObj where
  n_components : ℕ
  family : Fam
  maxiter : ℕ
  eps : ℚ
  penalty : ℚ
  verbose : Bool
  initFactors : Option (List (List ℚ))
  initLoadings : Option (List (List ℚ))
  nb_theta : ℚ
  gf : Except GErr FamObj
  sz : Option (List ℚ)

/-- `GlmPCA.__init__`: source line 298 executes
`self.init = {"factors": None, "loadings": None}` — the literal default —
so the caller-supplied `init` argument (`initArg` here) is never stored. -/
def glmPCAMk (n_components : ℕ) (family : Fam) (maxiter : ℕ) (eps penalty : ℚ)
    (verbose : Bool) (initArg : Option (List (List ℚ)) × Option (List (List ℚ)))
    (nb_theta : ℚ) : GlmPCAObj :=
  { n_components := n_components
    family := family
    maxiter := maxiter
    eps := eps
    penalty := penalty
    verbose := verbose
    initFactors := none
    initLoadings := none
    nb_theta := nb_theta
    gf := mkGlmpcaFamily family (some nb_theta)
    sz := none }

/-! ## The warm-start overwrite inside GlmPCA.fit (glmpca.py lines 392-394)

`U[:, (Ko+Kf)+range(L0)] = self.init["factors"][:, range(L0)]` with
`L0 = min(n_components, ncol(init_factors))`. -/

/-- Overwrite entries `kshift .. kshift+L0-1` of one row of `U` with the first
`L0` entries of the matching row of the warm-start matrix. -/
def overwriteLatentRow (kshift L0 : ℕ) (urow frow : List ℚ) : List ℚ :=
  urow.mapIdx (fun c v => if kshift ≤ c ∧ c < kshift + L0 then frow.getD (c - kshift) v else v)

/-- The warm-start step of `fit`: when `initF` is present, copy its first
`min L (ncol initF)` columns into the latent block (columns `kshift ..`) of
`U`; when absent, leave `U` (its random initialization) unchanged. -/
def applyWarmStart (kshift L : ℕ) (initF : Option (List (List ℚ)))
    (U : List (List ℚ)) : List (List ℚ) :=
  match initF with
  | none => U
  | some F0 => List.zipWith (overwriteLatentRow kshift (min L (ncolL F0))) U F0

/-! ## GlmpcaFamily.initialize, size-factor branch (glmpca.py line 117)

For the `poi` and `nb` families the method executes
`self.sz = colMeans(Y) if sz is not None else sz`. -/

/-- The value stored in `self.sz` by `GlmpcaFamily.initialize` for the
Poisson / negative-binomial families (source line 117, verbatim condition). -/
def famInitSz (Y : List (List ℚ)) (sz : Option (List ℚ)) : Option (List ℚ) :=
  match sz with
  | some _ => some (colMeansL Y)
  | none => none

/-! ## remove_intercept (glmpca.py lines 48-57)

`X -= cm` subtracts the per-column means in place; for a float-dtype `X` this
mutates the caller's array (the `TypeError` fallback for integer dtypes makes
a fresh array via `astype` instead). The returned value keeps only the
columns whose centered L2 norm exceeds `1e-12`. -/

/-- The centering step `X -= colMeans(X)`. -/
def centerL (X : List (List ℚ)) : List (List ℚ) :=
  X.map (fun row => List.zipWith (fun a m => a - m) row (colMeansL X))

/-- Keep the entries of `row` whose column index satisfies `keep`
(the boolean-mask indexing `X[:, mask]`). -/
def selectIdx (keep : ℕ → Bool) (row : List ℚ) : List ℚ :=
  ((row.mapIdx (fun i v => (i, v))).filter (fun p => keep p.1)).map (fun p => p.2)

/-- The value returned by `remove_intercept`: the centered matrix restricted
to columns with `colNorms > 1e-12`. `colNorms(X) = sqrt(colSums(X**2))` and
`sqrt` is strictly monotone on nonnegatives, so the mask is expressed by
comparing the squared norm with `(1e-12)^2`. -/
def remove_interceptL (X : List (List ℚ)) : List (List ℚ) :=
  let Xc := centerL X
  let keep := fun j => decide ((1/10^12 : ℚ)^2 < (Xc.map (fun r => (r.getD j 0)^2)).sum)
  Xc.map (selectIdx keep)

/-- `remove_intercept` with its frame effect made explicit: the first
component is the returned (filtered) matrix, the second is the value the
caller's array holds afterwards. For a float dtype `X -= cm` succeeds and
the caller's array is left centered; for an integer dtype the subtraction
raises `TypeError` and the `astype` fallback copies, leaving the caller's
array untouched. -/
def remove_interceptEff (isFloatDtype : Bool) (X : List (List ℚ)) :
    List (List ℚ) × List (List ℚ) :=
  if isFloatDtype then (remove_interceptL X, centerL X)
  else (remove_interceptL X, X)

/-! ## The validation phase of GlmPCA.fit (glmpca.py lines 348-380) -/

/-- `np.min(Y) < 0`: some entry of `Y` is negative. -/
def negEntryB (Y : List (List ℚ)) : Bool :=
  Y.any (fun r => r.any (fun v => decide (v < 0)))

/-- `np.any(np.max(Y, axis=1) == 0)`: some row's maximum is zero. -/
def zeroRowB (Y : List (List ℚ)) : Bool :=
  Y.any (fun r => decide (r.maximum = ((0 : ℚ) : WithBot ℚ)))

/-- `self.family == "bern" and np.max(Y) > 1`. -/
def bernBadB (fam : Fam) (Y : List (List ℚ)) : Bool :=
  decide (fam = Fam.bern) && Y.any (fun r => r.any (fun v => decide (1 < v)))

/-- The X block of `fit` (lines 362-368): shape check, then
`remove_intercept`; a missing `X` becomes the empty `N x 0` array. -/
def checkX (Y : List (List ℚ)) (X : Option (List (List ℚ))) :
    Except GErr (List (List ℚ)) :=
  match X with
  | some x =>
    if nrowL x ≠ ncolL Y then Except.error GErr.dimX
    else Except.ok (remove_interceptL x)
  | none => Except.ok (List.replicate (ncolL Y) [])

/-- The Z block of `fit` (lines 371-375): shape check; a missing `Z` becomes
the empty `J x 0` array. -/
def checkZ (Y : List (List ℚ)) (Z : Option (List (List ℚ))) :
    Except GErr (List (List ℚ)) :=
  match Z with
  | some z =>
    if nrowL z ≠ nrowL Y then Except.error GErr.dimZ
    else Except.ok z
  | none => Except.ok (List.replicate (nrowL Y) [])

/-- The size-factor length check of `fit` (lines 379-380). -/
def checkSz (Y : List (List ℚ)) (sz : Option (List ℚ)) :
    Except GErr (Option (List ℚ)) :=
  match sz with
  | some v =>
    if v.length ≠ ncolL Y then Except.error GErr.dimSz
    else Except.ok (some v)
  | none => Except.ok none

/-- `GlmPCA.fit` up to the end of its validation phase. Everything after the
validations (index bookkeeping, family setup, random initialization, the
optimization loop and `ortho`) is abstracted as the continuation `optimize`,
which receives the validated inputs; the theorems below quantify over it,
which is exactly the claim that no optimization work can observe a rejected
input. -/
def glmpcaFit {α : Type}
    (optimize : Fam → List (List ℚ) → List (List ℚ) → List (List ℚ) →
      Option (List ℚ) → α)
    (fam : Fam) (Y : List (List ℚ)) (X Z : Option (List (List ℚ)))
    (sz : Option (List ℚ)) : Except GErr α :=
  if negEntryB Y then Except.error GErr.rangeNeg
  else if zeroRowB Y then Except.error GErr.zeroRow
  else if bernBadB fam Y then Except.error GErr.bernRange
  else do
    let Xp ← checkX Y X
    let Zp ← checkZ Y Z
    let szv ← checkSz Y sz
    pure (optimize fam Y Xp Zp szv)

/-- The value the caller's `X` array holds after `fit(Y, X=x)`: the three
value validations and the X shape check precede the `remove_intercept` call
(source order, lines 352-366), so the in-place centering happens exactly
when they all pass. -/
def fitCallerX (isFloatDtype : Bool) (fam : Fam) (Y : List (List ℚ))
    (x : List (List ℚ)) : List (List ℚ) :=
  if negEntryB Y || zeroRowB Y || bernBadB fam Y then x
  else if nrowL x ≠ ncolL Y then x
  else (remove_interceptEff isFloatDtype x).2

/-! ## est_nb_theta (glmpca.py lines 191-212)

The special functions `log`, `exp`, `digamma`, `trigamma` are numpy / scipy
externals (spec §6); they appear as function parameters. `y` and `mu` are the
flattened entries of the count matrix and the fitted means (`np.sum`
aggregates over all entries). -/

/-- The body of `est_nb_theta`, line for line from the source:
`u = log(th)`, `score`, `info1`, `info = info1 - score`,
`return exp(u + (score - u)/(info + 1))`. -/
def est_nb_theta {n : ℕ} (logf expf digamma trigamma : ℚ → ℚ)
    (y mu : Fin n → ℚ) (th : ℚ) : ℚ :=
  let u := logf th
  let score := th * (∑ i, (digamma (th + y i) - digamma th + logf th + 1
    - logf (th + mu i) - (y i + th) / (mu i + th)))
  let info1 := -(th^2) * (∑ i, (trigamma (th + mu i) - trigamma th + 1/th
    - 2/(mu i + th) + (y i + th)/(mu i + th)^2))
  let info := info1 - score
  expf (u + (score - u) / (info + 1))

/-- The return value as the claim words it: `exp(u + (score - u)/(info + 1))`
with `u = log th`, `score = th * Σ[digamma(th+y) - digamma(th) + log th + 1
- log(th+mu) - (y+th)/(mu+th)]` and `info = -th^2 * Σ[trigamma(th+mu)
- trigamma(th) + 1/th - 2/(mu+th) + (y+th)/(mu+th)^2] - score`. -/
def est_nb_theta_claim {n : ℕ} (logf expf digamma trigamma : ℚ → ℚ)
    (y mu : Fin n → ℚ) (th : ℚ) : ℚ :=
  expf (logf th +
    ((th * (∑ i, (digamma (th + y i) - digamma th + logf th + 1
        - logf (th + mu i) - (y i + th) / (mu i + th)))) - logf th) /
      ((-(th^2) * (∑ i, (trigamma (th + mu i) - trigamma th + 1/th
          - 2/(mu i + th) + (y i + th)/(mu i + th)^2))
        - th * (∑ i, (digamma (th + y i) - digamma th + logf th + 1
          - logf (th + mu i) - (y i + th) / (mu i + th)))) + 1))

/-! ## mat_binom_dev and the multinomial dev_func (glmpca.py lines 162-188)

The two `with np.errstate(...): term = x*log(x/(n*P))` blocks produce IEEE
non-finite values (from division by zero, `log(0)`, `log` of a negative, or
`0 * inf`), and `term[np.isfinite(term)].sum()` drops them. The IEEE
structure is embedded by the four-point type `XR`; the finite value of the
logarithm is the external `np.log`, passed as `logf`. -/

/-- An IEEE double restricted to the four cases the deviance terms can
produce: a finite value, `+inf`, `-inf`, or `nan`. -/
inductive XR where
  | fin : ℚ → XR
  | pinf : XR
  | ninf : XR
  | nan : XR
  deriving DecidableEq

/-- The contribution of an element to `term[np.isfinite(term)].sum()`:
its value when finite, zero otherwise. -/
def XR.finPart : XR → ℚ
  | XR.fin q => q
  | _ => 0

/-- IEEE division of two finite doubles: `a/0` is `nan` (0/0), `+inf` or
`-inf` (sign of `a`); otherwise finite. -/
def xdiv (a b : ℚ) : XR :=
  if b = 0 then (if a = 0 then XR.nan else if 0 < a then XR.pinf else XR.ninf)
  else XR.fin (a / b)

/-- IEEE `np.log` on the extended values: `log` of a positive finite value is
finite (the external `logf`), `log 0 = -inf`, `log` of a negative is `nan`,
`log(+inf) = +inf`, `log(-inf) = nan`, `log(nan) = nan`. -/
def xlog (logf : ℚ → ℚ) : XR → XR
  | XR.fin q => if 0 < q then XR.fin (logf q) else if q = 0 then XR.ninf else XR.nan
  | XR.pinf => XR.pinf
  | XR.ninf => XR.nan
  | XR.nan => XR.nan

/-- IEEE product of a finite double with an extended value:
`0 * (±inf) = nan`, otherwise infinities keep or flip sign. -/
def xsmul (a : ℚ) : XR → XR
  | XR.fin q => XR.fin (a * q)
  | XR.pinf => if 0 < a then XR.pinf else if a = 0 then XR.nan else XR.ninf
  | XR.ninf => if 0 < a then XR.ninf else if a = 0 then XR.nan else XR.pinf
  | XR.nan => XR.nan

/-- One element of a deviance term: `x * log(x / r)` under IEEE semantics. -/
def binomTerm (logf : ℚ → ℚ) (x r : ℚ) : XR := xsmul x (xlog logf (xdiv x r))

/-- `colSums(Y) = Y.sum(axis=0)`; `initialize` stores this as the multinomial
totals `mult_n`. -/
def colSumsM {J N : ℕ} (Y : Matrix (Fin J) (Fin N) ℚ) : Fin N → ℚ :=
  fun i => ∑ j, Y j i

/-- `GlmpcaFamily.mat_binom_dev(X, P, n)`: `2 * (term1 + term2)` where each
term sums only its finite elements. -/
def mat_binom_dev {J N : ℕ} (logf : ℚ → ℚ) (X P : Matrix (Fin J) (Fin N) ℚ)
    (nv : Fin N → ℚ) : ℚ :=
  let term1 := ∑ j, ∑ i, XR.finPart (binomTerm logf (X j i) (nv i * P j i))
  let term2 := ∑ j, ∑ i, XR.finPart (binomTerm logf (nv i - X j i) (nv i * (1 - P j i)))
  2 * (term1 + term2)

/-- The Binomial (logit) inverse link `ilfunc`, with `np.exp` external. -/
def pexpit (expf : ℚ → ℚ) (r : ℚ) : ℚ := 1 / (1 + expf (-r))

/-- `GlmpcaFamily.dev_func` for the multinomial family:
`mat_binom_dev(Y, ilfunc(R), mult_n)` with `mult_n = colSums(Y)`. -/
def dev_func_mult {J N : ℕ} (logf expf : ℚ → ℚ)
    (Y R : Matrix (Fin J) (Fin N) ℚ) : ℚ :=
  mat_binom_dev logf Y (Matrix.of fun j i => pexpit expf (R j i)) (colSumsM Y)

/-! ## The coordinate-wise Fisher-scoring sweep (glmpca.py lines 418-429)

`U` and `V` both have `K = Ko + Kf + L` columns; `vid`, `uid` list the
columns visited and `lid` is the set of penalized latent columns. The
family's `infograd` (a function of `Y` and the linear predictor `R`) and the
offsets inside `rfunc` are parameters, as in the code where they live on the
family object. Python multiplies by the boolean `(k in lid)` as `0`/`1`. -/

/-- `self.gf.rfunc(U, V) = self.offsets + tcrossprod(V, U)`. -/
def rfuncM {J N K : ℕ} (offsets : Matrix (Fin J) (Fin N) ℚ)
    (U : Matrix (Fin N) (Fin K) ℚ) (V : Matrix (Fin J) (Fin K) ℚ) :
    Matrix (Fin J) (Fin N) ℚ :=
  offsets + V * Uᵀ

/-- Python boolean used as a number: `(k in lid)` is `1` or `0`. -/
def pyBool (b : Prop) [Decidable b] : ℚ := if b then 1 else 0

/-- One iteration of the `for k in vid` loop:
`ig = infograd(Y, rfunc(U,V))`;
`grads = ig["grad"] @ U[:,k] - penalty * V[:,k] * (k in lid)`;
`infos = ig["info"] @ (U[:,k]**2) + penalty * (k in lid)`;
`V[:,k] += grads/infos`. -/
def updVcol {J N K : ℕ}
    (ig : Matrix (Fin J) (Fin N) ℚ → Matrix (Fin J) (Fin N) ℚ →
      Matrix (Fin J) (Fin N) ℚ × Matrix (Fin J) (Fin N) ℚ)
    (offsets : Matrix (Fin J) (Fin N) ℚ) (pen : ℚ) (lid : Finset (Fin K))
    (Y : Matrix (Fin J) (Fin N) ℚ) (U : Matrix (Fin N) (Fin K) ℚ)
    (V : Matrix (Fin J) (Fin K) ℚ) (k : Fin K) : Matrix (Fin J) (Fin K) ℚ :=
  let g := (ig Y (rfuncM offsets U V)).1
  let w := (ig Y (rfuncM offsets U V)).2
  Matrix.of fun j l =>
    if l = k then
      V j k + ((∑ n, g j n * U n k) - pen * V j k * pyBool (k ∈ lid)) /
        ((∑ n, w j n * (U n k)^2) + pen * pyBool (k ∈ lid))
    else V j l

/-- One iteration of the `for k in uid` loop:
`grads = crossprod(ig["grad"], V[:,k]) - penalty * U[:,k] * (k in lid)`;
`infos = crossprod(ig["info"], V[:,k]**2) + penalty * (k in lid)`;
`U[:,k] += grads/infos`. -/
def updUcol {J N K : ℕ}
    (ig : Matrix (Fin J) (Fin N) ℚ → Matrix (Fin J) (Fin N) ℚ →
      Matrix (Fin J) (Fin N) ℚ × Matrix (Fin J) (Fin N) ℚ)
    (offsets : Matrix (Fin J) (Fin N) ℚ) (pen : ℚ) (lid : Finset (Fin K))
    (Y : Matrix (Fin J) (Fin N) ℚ) (U : Matrix (Fin N) (Fin K) ℚ)
    (V : Matrix (Fin J) (Fin K) ℚ) (k : Fin K) : Matrix (Fin N) (Fin K) ℚ :=
  let g := (ig Y (rfuncM offsets U V)).1
  let w := (ig Y (rfuncM offsets U V)).2
  Matrix.of fun n l =>
    if l = k then
      U n k + ((∑ j, g j n * V j k) - pen * U n k * pyBool (k ∈ lid)) /
        ((∑ j, w j n * (V j k)^2) + pen * pyBool (k ∈ lid))
    else U n l

/-- The full update sweep of one optimizer iteration: all columns `k` in
`vid` (updating `V` in place, left to right), then all columns `k` in `uid`
(updating `U` in place), each step recomputing `infograd` on the current
`(U, V)`. -/
def fitSweep {J N K : ℕ}
    (ig : Matrix (Fin J) (Fin N) ℚ → Matrix (Fin J) (Fin N) ℚ →
      Matrix (Fin J) (Fin N) ℚ × Matrix (Fin J) (Fin N) ℚ)
    (offsets : Matrix (Fin J) (Fin N) ℚ) (pen : ℚ) (lid : Finset (Fin K))
    (vid uid : List (Fin K)) (Y : Matrix (Fin J) (Fin N) ℚ)
    (U : Matrix (Fin N) (Fin K) ℚ) (V : Matrix (Fin J) (Fin K) ℚ) :
    Matrix (Fin N) (Fin K) ℚ × Matrix (Fin J) (Fin K) ℚ :=
  let V2 := vid.foldl (fun Vc k => updVcol ig offsets pen lid Y U Vc k) V
  let U2 := uid.foldl (fun Uc k => updUcol ig offsets pen lid Y Uc V2 k) U
  (U2, V2)

/-- The single-column `V` step as the claim words it: the added step is
(grad-projection minus `penalty * V[:,k]` if `k ∈ lid`, else minus nothing)
divided by (info-projection plus `penalty` if `k ∈ lid`, else plus nothing),
with `infograd` recomputed on the current `(U, V)`. -/
def updVcolClaim {J N K : ℕ}
    (ig : Matrix (Fin J) (Fin N) ℚ → Matrix (Fin J) (Fin N) ℚ →
      Matrix (Fin J) (Fin N) ℚ × Matrix (Fin J) (Fin N) ℚ)
    (offsets : Matrix (Fin J) (Fin N) ℚ) (pen : ℚ) (lid : Finset (Fin K))
    (Y : Matrix (Fin J) (Fin N) ℚ) (U : Matrix (Fin N) (Fin K) ℚ)
    (V : Matrix (Fin J) (Fin K) ℚ) (k : Fin K) : Matrix (Fin J) (Fin K) ℚ :=
  let g := (ig Y (rfuncM offsets U V)).1
  let w := (ig Y (rfuncM offsets U V)).2
  Matrix.of fun j l =>
    if l = k then
      V j k + ((∑ n, g j n * U n k) - (if k ∈ lid then pen * V j k else 0)) /
        ((∑ n, w j n * (U n k)^2) + (if k ∈ lid then pen else 0))
    else V j l

/-- The single-column `U` step as the claim words it. -/
def updUcolClaim {J N K : ℕ}
    (ig : Matrix (Fin J) (Fin N) ℚ → Matrix (Fin J) (Fin N) ℚ →
      Matrix (Fin J) (Fin N) ℚ × Matrix (Fin J) (Fin N) ℚ)
    (offsets : Matrix (Fin J) (Fin N) ℚ) (pen : ℚ) (lid : Finset (Fin K))
    (Y : Matrix (Fin J) (Fin N) ℚ) (U : Matrix (Fin N) (Fin K) ℚ)
    (V : Matrix (Fin J) (Fin K) ℚ) (k : Fin K) : Matrix (Fin N) (Fin K) ℚ :=
  let g := (ig Y (rfuncM offsets U V)).1
  let w := (ig Y (rfuncM offsets U V)).2
  Matrix.of fun n l =>
    if l = k then
      U n k + ((∑ j, g j n * V j k) - (if k ∈ lid then pen * U n k else 0)) /
        ((∑ j, w j n * (V j k)^2) + (if k ∈ lid then pen else 0))
    else U n l

/-- The sweep as the claim words it: every `k` in `vid` then every `k` in
`uid`, Gauss–Seidel style (each column update feeds the `infograd` of the
later columns of the same sweep), with the penalty applied exactly to the
columns in `lid`. -/
def fitSweepClaim {J N K : ℕ}
    (ig : Matrix (Fin J) (Fin N) ℚ → Matrix (Fin J) (Fin N) ℚ →
      Matrix (Fin J) (Fin N) ℚ × Matrix (Fin J) (Fin N) ℚ)
    (offsets : Matrix (Fin J) (Fin N) ℚ) (pen : ℚ) (lid : Finset (Fin K))
    (vid uid : List (Fin K)) (Y : Matrix (Fin J) (Fin N) ℚ)
    (U : Matrix (Fin N) (Fin K) ℚ) (V : Matrix (Fin J) (Fin K) ℚ) :
    Matrix (Fin N) (Fin K) ℚ × Matrix (Fin J) (Fin K) ℚ :=
  let V2 := vid.foldl (fun Vc k => updVcolClaim ig offsets pen lid Y U Vc k) V
  let U2 := uid.foldl (fun Uc k => updUcolClaim ig offsets pen lid Y Uc V2 k) U
  (U2, V2)

/-! ## GlmPCA.ortho (glmpca.py lines 304-345)

The least-squares coefficients `betax`, `betaz` (numpy `lstsq`), the economy
SVD `loadings = sU @ diag(d) @ Qt` and the `argsort` permutation `o` are the
external dense-linear-algebra collaborators; they enter as parameters, the
SVD tied to its defining equation in the theorem's hypothesis. -/

/-- The result fields set by `ortho`. -/
structure OrthoOut (N J L Ko Kf : ℕ) where
  factors : Matrix (Fin N) (Fin L) ℚ
  loadings : Matrix (Fin J) (Fin L) ℚ
  coefX : Matrix (Fin J) (Fin Ko) ℚ
  coefZ : Option (Matrix (Fin N) (Fin Kf) ℚ)

/-- `if np.all(G==0): G = None` (an all-zero `G` is treated as absent). -/
def orthoGCoerce {N Kf : ℕ} (G : Option (Matrix (Fin N) (Fin Kf) ℚ)) :
    Option (Matrix (Fin N) (Fin Kf) ℚ) :=
  match G with
  | some g => if g = 0 then none else some g
  | none => none

/-- The loadings handed to the SVD: `V` itself when `G` is absent, else the
residual `V - Z @ betaz` of the regression of `V` on `Z`. -/
def orthoLres {N J L Kf : ℕ} (V : Matrix (Fin J) (Fin L) ℚ)
    (Z : Matrix (Fin J) (Fin Kf) ℚ) (bz : Matrix (Fin Kf) (Fin L) ℚ)
    (G : Option (Matrix (Fin N) (Fin Kf) ℚ)) : Matrix (Fin J) (Fin L) ℚ :=
  match orthoGCoerce G with
  | none => V
  | some _ => V - Z * bz

/-- `GlmPCA.ortho`: residualize `U` against `X` folding the explained part
into `A`; if `G` is present, residualize `V` against `Z` folding into `G`;
rotate by the SVD of the (residualized) loadings
(`factors = tcrossprod(factors, Qt) * d`); reorder the latent columns by the
permutation `o` (`argsort` of descending factor column norms). -/
def ortho {N J L Ko Kf : ℕ} (U : Matrix (Fin N) (Fin L) ℚ)
    (V : Matrix (Fin J) (Fin L) ℚ) (A : Matrix (Fin J) (Fin Ko) ℚ)
    (X : Matrix (Fin N) (Fin Ko) ℚ) (G : Option (Matrix (Fin N) (Fin Kf) ℚ))
    (Z : Matrix (Fin J) (Fin Kf) ℚ) (bx : Matrix (Fin Ko) (Fin L) ℚ)
    (bz : Matrix (Fin Kf) (Fin L) ℚ) (sU : Matrix (Fin J) (Fin L) ℚ)
    (d : Fin L → ℚ) (Qt : Matrix (Fin L) (Fin L) ℚ) (o : Equiv.Perm (Fin L)) :
    OrthoOut N J L Ko Kf :=
  let factors := U - X * bx
  let A2 := A + V * bxᵀ
  let G2 := match orthoGCoerce G with
    | none => none
    | some g => some (g + factors * bzᵀ)
  let factors2 := (factors * Qtᵀ) * Matrix.diagonal d
  { factors := factors2.submatrix id ⇑o
    loadings := sU.submatrix id ⇑o
    coefX := A2
    coefZ := G2 }

/-- The `Z @ G.T` contribution of an optional gene-covariate coefficient
matrix to the linear predictor (absent means zero). -/
def optZterm {N J Kf : ℕ} (G : Option (Matrix (Fin N) (Fin Kf) ℚ))
    (Z : Matrix (Fin J) (Fin Kf) ℚ) : Matrix (Fin J) (Fin N) ℚ :=
  match G with
  | some g => Z * gᵀ
  | none => 0

/-! ## The optimization loop of GlmPCA.fit (glmpca.py lines 404-411, 441)

One iteration records `dev[t] = dev_func(Y, rfunc(U,V))`, raises on a
non-finite deviance, breaks when `t > 4` and the relative deviance change is
below `eps` (before that iteration's update), and otherwise performs the
update sweep. The per-iteration update (the sweep, plus for `nb` the
dispersion re-estimation and family rebuild) is the state-evolution
parameter `step`; `devf` computes the deviance of a state; the IEEE
finiteness test (vacuous over `ℚ`) is the parameter `finOK`. The trailing
`self.dev = dev[range(t+1)]` is the returned trace. -/

/-- The deviance recorded at iteration `t`: the deviance of the state after
`t` update sweeps. -/
def devSeq {S : Type} (step : S → S) (devf : S → ℚ) (s0 : S) (t : ℕ) : ℚ :=
  devf (step^[t] s0)

/-- Source line 410 in terms of recorded deviances:
`t > 4 and np.abs(dev[t]-dev[t-1])/(0.1+np.abs(dev[t-1])) < eps`. -/
def stopCond (eps : ℚ) (f : ℕ → ℚ) (t : ℕ) : Prop :=
  4 < t ∧ |f t - f (t - 1)| / (1/10 + |f (t - 1)|) < eps

instance stopCondDec (eps : ℚ) (f : ℕ → ℚ) (t : ℕ) : Decidable (stopCond eps f t) :=
  inferInstanceAs (Decidable (_ ∧ _))

/-- The loop of `fit`, with `acc` the deviances recorded so far (newest
first, so the iteration index `t` is `acc.length` and `dev[t-1]` is
`acc.headI`) and the fuel counting the remaining iterations up to `maxiter`.
A non-finite deviance raises (`Except.error`); the break returns the state
untouched together with the trace including the final check iteration; fuel
exhaustion returns after the last update. -/
def fitLoopAux {S : Type} (step : S → S) (devf : S → ℚ) (finOK : ℚ → Bool)
    (eps : ℚ) : ℕ → S → List ℚ → Except Unit (S × List ℚ)
  | 0, s, acc => Except.ok (s, acc.reverse)
  | n+1, s, acc =>
    let d := devf s
    if finOK d = false then Except.error ()
    else if 4 < acc.length ∧ |d - acc.headI| / (1/10 + |acc.headI|) < eps then
      Except.ok (s, (d :: acc).reverse)
    else fitLoopAux step devf finOK eps n (step s) (d :: acc)

/-- `for t in range(self.maxiter): ...` together with the final truncation
`self.dev = dev[range(t+1)]`: the loop from the initial state with an empty
trace. -/
def fitLoop {S : Type} (step : S → S) (devf : S → ℚ) (finOK : ℚ → Bool)
    (eps : ℚ) (maxiter : ℕ) (s0 : S) : Except Unit (S × List ℚ) :=
  fitLoopAux step devf finOK eps maxiter s0 []

/-! ## Theorems -/

/-- Claim C1: the claim states that a warm start supplied through the
constructor's `init` argument is copied into the latent columns of `U` and
`V`. The code discards the argument: `GlmPCA.__init__` stores the literal
`{"factors": None, "loadings": None}`, so `fit`'s warm-start branch never
fires and the latent columns keep their small random values. Concretely,
constructing with `init = (some [[5],[7]], some [[2],[2]])` yields an object
whose stored warm start is `none`; the overwrite step then leaves `U`
unchanged, whereas the stored warm start would have produced `[[1,5],[1,7]]`. -/
theorem glmpca_c1_init_discarded :
    (glmPCAMk 1 Fam.poi 1000 (1/10000) 1 false
      (some [[5],[7]], some [[2],[2]]) 100).initFactors = none ∧
    applyWarmStart 1 1
      (glmPCAMk 1 Fam.poi 1000 (1/10000) 1 false
        (some [[5],[7]], some [[2],[2]]) 100).initFactors
      [[1,0],[1,0]] = [[1,0],[1,0]] ∧
    applyWarmStart 1 1 (some [[5],[7]]) [[1,0],[1,0]] = [[1,5],[1,7]] ∧
    ([[1,5],[1,7]] : List (List ℚ)) ≠ [[1,0],[1,0]] := by
  refine ⟨rfl, rfl, by decide, by decide⟩

/-- Claim C2: the claim states that a caller-supplied size-factor vector is
stored (with `colMeans(Y)` as the default when none is supplied). The code's
condition is inverted (`colMeans(Y) if sz is not None else sz`): with
`Y = [[1,2],[3,5]]` and supplied `sz = [5,6]` it stores `colMeans(Y) = [2,7/2]`,
not `[5,6]`; and with no `sz` it stores `None` (whose `link` then fails)
instead of the column means. -/
theorem glmpca_c2_size_factors_inverted :
    famInitSz [[1,2],[3,5]] (some [5,6]) = some [2, 7/2] ∧
    ([2, 7/2] : List ℚ) ≠ [5, 6] ∧
    famInitSz [[1,2],[3,5]] none = none := by
  refine ⟨?_, by simp, rfl⟩
  simp [famInitSz, colMeansL, ncolL, nrowL, List.range_succ]
  norm_num

/-- Claim C8: the claim states that the family wrapper returned from a
negative-binomial fit carries the final fitted dispersion in its `nb_theta`
field. The constructor's trailing "define variables define later" block
(source line 98) re-assigns `self.nb_theta = None`, so every wrapper —
including the one rebuilt after the last dispersion update in `fit` — has
`nb_theta = None` rather than the fitted θ. -/
theorem glmpca_c8_family_theta_dropped :
    mkGlmpcaFamily Fam.nb (some 100) =
      Except.ok { glm_family := Fam.nb, nb_theta := none } := rfl

/-- Claim C9: every input with a negative entry, a Bernoulli value above 1,
an all-zero feature row, or an X/Z/size-factor shape mismatch makes `fit`
return the corresponding error from its validation phase, for every possible
continuation `optimize` — so no deviance is computed and `U`, `V` are never
touched. The checks cascade in source order, hence the earlier checks'
negations in the later conjuncts. -/
theorem glmpca_c9_validation_errors {α : Type}
    (optimize : Fam → List (List ℚ) → List (List ℚ) → List (List ℚ) →
      Option (List ℚ) → α)
    (fam : Fam) (Y : List (List ℚ)) (X Z : Option (List (List ℚ)))
    (sz : Option (List ℚ)) :
    ((∃ r ∈ Y, ∃ v ∈ r, v < 0) →
      glmpcaFit optimize fam Y X Z sz = Except.error GErr.rangeNeg) ∧
    (negEntryB Y = false → (∃ r ∈ Y, r ≠ [] ∧ ∀ v ∈ r, v = 0) →
      glmpcaFit optimize fam Y X Z sz = Except.error GErr.zeroRow) ∧
    (negEntryB Y = false → zeroRowB Y = false → fam = Fam.bern →
      (∃ r ∈ Y, ∃ v ∈ r, 1 < v) →
      glmpcaFit optimize fam Y X Z sz = Except.error GErr.bernRange) ∧
    (negEntryB Y = false → zeroRowB Y = false → bernBadB fam Y = false →
      ∀ x, X = some x → nrowL x ≠ ncolL Y →
      glmpcaFit optimize fam Y X Z sz = Except.error GErr.dimX) ∧
    (negEntryB Y = false → zeroRowB Y = false → bernBadB fam Y = false →
      (∀ x, X = some x → nrowL x = ncolL Y) →
      ∀ z, Z = some z → nrowL z ≠ nrowL Y →
      glmpcaFit optimize fam Y X Z sz = Except.error GErr.dimZ) ∧
    (negEntryB Y = false → zeroRowB Y = false → bernBadB fam Y = false →
      (∀ x, X = some x → nrowL x = ncolL Y) →
      (∀ z, Z = some z → nrowL z = nrowL Y) →
      ∀ v, sz = some v → v.length ≠ ncolL Y →
      glmpcaFit optimize fam Y X Z sz = Except.error GErr.dimSz) := by
  refine ⟨?_, ?_, ?_, ?_, ?_, ?_⟩
  · intro h
    have hb : negEntryB Y = true := by
      simpa [negEntryB, List.any_eq_true, decide_eq_true_eq] using h
    simp [glmpcaFit, hb]
  · intro hneg hz
    have hb : zeroRowB Y = true := by
      obtain ⟨r, hr, hne, hall⟩ := hz
      obtain ⟨v, hv⟩ := List.exists_mem_of_ne_nil r hne
      have h0 : (0 : ℚ) ∈ r := by
        have := hall v hv
        simpa [this] using hv
      have hmax : r.maximum = ((0 : ℚ) : WithBot ℚ) :=
        List.maximum_eq_coe_iff.mpr ⟨h0, fun a ha => le_of_eq (hall a ha)⟩
      simp only [zeroRowB, List.any_eq_true, decide_eq_true_eq]
      exact ⟨r, hr, hmax⟩
    simp [glmpcaFit, hneg, hb]
  · intro hneg hzero hfam h
    have hb : bernBadB fam Y = true := by
      simp only [bernBadB, Bool.and_eq_true, List.any_eq_true, decide_eq_true_eq]
      exact ⟨by simp [hfam], by simpa using h⟩
    simp [glmpcaFit, hneg, hzero, hb]
  · intro hneg hzero hbern x hX hdim
    simp [glmpcaFit, hneg, hzero, hbern, hX, checkX, hdim]
    rfl
  · intro hneg hzero hbern hX z hZ hdim
    cases X with
    | none =>
      simp [glmpcaFit, hneg, hzero, hbern, hZ, checkX, checkZ, hdim]
      rfl
    | some x =>
      have hx : nrowL x = ncolL Y := hX x rfl
      simp [glmpcaFit, hneg, hzero, hbern, hZ, checkX, checkZ, hdim, hx]
      rfl
  · intro hneg hzero hbern hX hZ v hsz hdim
    have hxok : ∃ xp, checkX Y X = Except.ok xp := by
      cases X with
      | none => exact ⟨_, rfl⟩
      | some x =>
        exact ⟨remove_interceptL x, by simp [checkX, hX x rfl]⟩
    have hzok : ∃ zp, checkZ Y Z = Except.ok zp := by
      cases Z with
      | none => exact ⟨_, rfl⟩
      | some z => exact ⟨z, by simp [checkZ, hZ z rfl]⟩
    obtain ⟨xp, hxp⟩ := hxok
    obtain ⟨zp, hzp⟩ := hzok
    simp [glmpcaFit, hneg, hzero, hbern, hxp, hzp, hsz, checkSz, hdim]
    rfl

/-- Witness for C9 at a concrete input: `Y = [[-1]]` contains a negative
entry, and `fit` (with a trivial continuation) errors with the range error. -/
theorem glmpca_c9_validation_errors_witness :
    glmpcaFit (fun _ _ _ _ _ => ()) Fam.poi [[-1]] none none none =
      Except.error GErr.rangeNeg :=
  (glmpca_c9_validation_errors (fun _ _ _ _ _ => ()) Fam.poi [[-1]]
    none none none).1 ⟨[-1], by simp, -1, by simp, by norm_num⟩

/-- Claim C10: a float-dtype `X` passed to `fit` is mutated in place.
In the explicit-frame embedding: on the float path the caller's array ends
up centered (`X - colMeans(X)`), and at `fit`'s call site (all validations
passing) the concrete input `[[1],[3]]` is left as `[[-1],[1]]`, which
differs from the original — the input is not treated as immutable. -/
theorem glmpca_c10_remove_intercept_mutates :
    (∀ X : List (List ℚ), (remove_interceptEff true X).2 = centerL X) ∧
    fitCallerX true Fam.poi [[1,1]] [[1],[3]] = [[-1],[1]] ∧
    ([[-1],[1]] : List (List ℚ)) ≠ [[1],[3]] := by
  refine ⟨fun X => rfl, ?_, by simp⟩
  have h1 : negEntryB [[1,1]] = false := by decide
  have h2 : zeroRowB [[1,1]] = false := by decide
  have h3 : bernBadB Fam.poi [[1,1]] = false := by decide
  have h4 : nrowL [[1],[3]] = ncolL [[1,1]] := by decide
  simp only [fitCallerX, h1, h2, h3, Bool.or_self, Bool.false_or, if_neg,
    remove_interceptEff, if_pos]
  · simp [centerL, colMeansL, ncolL, nrowL, List.range_succ]
    norm_num

/-- Characterization of one IEEE deviance element: `x * log(x / r)` is finite
exactly when the ratio is positive (in `ℚ`, `x / 0 = 0`, so `0 < x / r`
already forces `r ≠ 0`), and then its value is `x * logf (x / r)`; in every
other case (`0/0`, `log 0`, `log` of a negative, `x * (±inf)`) the element is
non-finite and contributes zero. -/
theorem binomTerm_finPart (logf : ℚ → ℚ) (x r : ℚ) :
    XR.finPart (binomTerm logf x r) =
      if 0 < x / r then x * logf (x / r) else 0 := by
  by_cases hb : r = 0
  · subst hb
    rw [div_zero, if_neg (lt_irrefl 0)]
    rcases lt_trichotomy x 0 with hx | hx | hx
    · simp [binomTerm, xdiv, xlog, xsmul, XR.finPart, hx.ne, not_lt.mpr hx.le]
    · subst hx
      simp [binomTerm, xdiv, xlog, xsmul, XR.finPart]
    · simp [binomTerm, xdiv, xlog, xsmul, XR.finPart, hx, hx.ne']
  · rcases lt_trichotomy 0 (x / r) with hq | hq | hq
    · simp [binomTerm, xdiv, hb, xlog, hq, xsmul, XR.finPart]
    · have hx0 : x = 0 := by
        rcases div_eq_zero_iff.mp hq.symm with h | h
        · exact h
        · exact absurd h hb
      rw [if_neg (by rw [← hq]; exact lt_irrefl 0)]
      simp [binomTerm, xdiv, hb, xlog, ← hq, xsmul, XR.finPart, hx0]
    · rw [if_neg (not_lt.mpr hq.le)]
      simp [binomTerm, xdiv, hb, xlog, not_lt.mpr hq.le, hq.ne, xsmul, XR.finPart]

/-- Claim C6: for every count vector `y`, mean vector `mu` with positive
entries and dispersion `th > 0`, `est_nb_theta(y, mu, th)` returns
`exp(u + (score - u)/(info + 1))` with `u = log th`, the claimed score
`th * Σ[digamma(th+y) - digamma(th) + log th + 1 - log(th+mu) - (y+th)/(mu+th)]`
and the observed-information curvature `info = -th^2 * Σ[trigamma(th+mu)
- trigamma(th) + 1/th - 2/(mu+th) + (y+th)/(mu+th)^2] - score`. The special
functions are the scipy/numpy externals, passed as parameters. -/
theorem glmpca_c6_est_nb_theta_formula {n : ℕ}
    (logf expf digamma trigamma : ℚ → ℚ) (y mu : Fin n → ℚ) (th : ℚ)
    (hmu : ∀ i, 0 < mu i) (hth : 0 < th) :
    est_nb_theta logf expf digamma trigamma y mu th =
      est_nb_theta_claim logf expf digamma trigamma y mu th := rfl

/-- Witness for C6 at a concrete input (`n = 1`, `y = 0`, `mu = 1`, `th = 1`,
identity external functions). -/
theorem glmpca_c6_est_nb_theta_formula_witness :
    est_nb_theta id id id id (fun _ : Fin 1 => (0 : ℚ)) (fun _ => 1) 1 =
      est_nb_theta_claim id id id id (fun _ : Fin 1 => (0 : ℚ)) (fun _ => 1) 1 :=
  glmpca_c6_est_nb_theta_formula id id id id _ _ 1
    (fun _ => by norm_num) (by norm_num)

/-- Claim C7: the multinomial `dev_func(Y, R)` equals `2 * (term1 + term2)`,
where `term1` sums `X * log(X/(nP))` and `term2` sums
`(n-X) * log((n-X)/(n(1-P)))` over exactly the index pairs where the element
is IEEE-finite — i.e. where the ratio is positive (over `ℚ`, `x / 0 = 0`, so
the positivity of the ratio also encodes a nonzero denominator) — with `P`
the inverse link of `R` and `n` the per-column totals; every non-finite
element (such as `0 * log 0`) contributes exactly zero. -/
theorem glmpca_c7_mult_deviance_finite_sum {J N : ℕ} (logf expf : ℚ → ℚ)
    (Y R : Matrix (Fin J) (Fin N) ℚ) :
    dev_func_mult logf expf Y R =
      2 * ((∑ j, ∑ i,
          if 0 < Y j i / (colSumsM Y i * pexpit expf (R j i)) then
            Y j i * logf (Y j i / (colSumsM Y i * pexpit expf (R j i)))
          else 0) +
        (∑ j, ∑ i,
          if 0 < (colSumsM Y i - Y j i) / (colSumsM Y i * (1 - pexpit expf (R j i))) then
            (colSumsM Y i - Y j i) *
              logf ((colSumsM Y i - Y j i) / (colSumsM Y i * (1 - pexpit expf (R j i))))
          else 0)) := by
  unfold dev_func_mult mat_binom_dev
  simp only [Matrix.of_apply, binomTerm_finPart]

/-- The Python indicator arithmetic `- pen * v * (k in lid)` / `+ pen * (k
in lid)` agrees with the claim's conditional phrasing for one `V` column. -/
theorem updVcol_eq_claim {J N K : ℕ}
    (ig : Matrix (Fin J) (Fin N) ℚ → Matrix (Fin J) (Fin N) ℚ →
      Matrix (Fin J) (Fin N) ℚ × Matrix (Fin J) (Fin N) ℚ)
    (offsets : Matrix (Fin J) (Fin N) ℚ) (pen : ℚ) (lid : Finset (Fin K))
    (Y : Matrix (Fin J) (Fin N) ℚ) (U : Matrix (Fin N) (Fin K) ℚ)
    (V : Matrix (Fin J) (Fin K) ℚ) (k : Fin K) :
    updVcol ig offsets pen lid Y U V k = updVcolClaim ig offsets pen lid Y U V k := by
  ext j l
  by_cases hk : k ∈ lid <;> simp [updVcol, updVcolClaim, pyBool, hk]

/-- Same as `updVcol_eq_claim` for one `U` column. -/
theorem updUcol_eq_claim {J N K : ℕ}
    (ig : Matrix (Fin J) (Fin N) ℚ → Matrix (Fin J) (Fin N) ℚ →
      Matrix (Fin J) (Fin N) ℚ × Matrix (Fin J) (Fin N) ℚ)
    (offsets : Matrix (Fin J) (Fin N) ℚ) (pen : ℚ) (lid : Finset (Fin K))
    (Y : Matrix (Fin J) (Fin N) ℚ) (U : Matrix (Fin N) (Fin K) ℚ)
    (V : Matrix (Fin J) (Fin K) ℚ) (k : Fin K) :
    updUcol ig offsets pen lid Y U V k = updUcolClaim ig offsets pen lid Y U V k := by
  ext n l
  by_cases hk : k ∈ lid <;> simp [updUcol, updUcolClaim, pyBool, hk]

/-- `List.foldl` respects pointwise equal step functions. -/
theorem foldl_congr_fun {α β : Type} (f g : α → β → α) (h : ∀ a b, f a b = g a b) :
    ∀ (l : List β) (init : α), l.foldl f init = l.foldl g init := by
  intro l
  induction l with
  | nil => intro init; rfl
  | cons b t iht => intro init; rw [List.foldl_cons, List.foldl_cons, h, iht]

/-- Claim C3: the update sweep of an optimizer iteration — every column `k`
in `vid` then every `k` in `uid`, recomputing `infograd` on the current
`(U, V)` before each single-column update (so each update feeds the later
columns of the same sweep), adding the step (grad-projection minus
`penalty * column` exactly when `k ∈ lid`) over (info-projection plus
`penalty` exactly when `k ∈ lid`) — coincides with the code's sweep for all
inputs, families (`infograd`), offsets, penalties and index sets. -/
theorem glmpca_c3_sweep_refines_spec {J N K : ℕ}
    (ig : Matrix (Fin J) (Fin N) ℚ → Matrix (Fin J) (Fin N) ℚ →
      Matrix (Fin J) (Fin N) ℚ × Matrix (Fin J) (Fin N) ℚ)
    (offsets : Matrix (Fin J) (Fin N) ℚ) (pen : ℚ) (lid : Finset (Fin K))
    (vid uid : List (Fin K)) (Y : Matrix (Fin J) (Fin N) ℚ)
    (U : Matrix (Fin N) (Fin K) ℚ) (V : Matrix (Fin J) (Fin K) ℚ) :
    fitSweep ig offsets pen lid vid uid Y U V =
      fitSweepClaim ig offsets pen lid vid uid Y U V := by
  simp only [fitSweep, fitSweepClaim]
  have hV2 : vid.foldl (fun Vc k => updVcol ig offsets pen lid Y U Vc k) V
      = vid.foldl (fun Vc k => updVcolClaim ig offsets pen lid Y U Vc k) V :=
    foldl_congr_fun _ _ (fun Vc k => updVcol_eq_claim ig offsets pen lid Y U Vc k) vid V
  have hU2 : ∀ V2, uid.foldl (fun Uc k => updUcol ig offsets pen lid Y Uc V2 k) U
      = uid.foldl (fun Uc k => updUcolClaim ig offsets pen lid Y Uc V2 k) U :=
    fun V2 =>
      foldl_congr_fun _ _ (fun Uc k => updUcol_eq_claim ig offsets pen lid Y Uc V2 k) uid U
  rw [hV2, hU2]

/-- Claim C5: `ortho` preserves the total linear predictor: with the SVD
factorization hypothesis tying the external `svd` call to its input, the
output satisfies `loadings_out @ factors_out.T + coefX_out @ X.T
+ Z @ coefZ_out.T = V @ U.T + A @ X.T + Z @ G.T` (the `Z` term absent when
`G` is absent), for every least-squares output `bx`, `bz` and every
reordering permutation `o`. -/
theorem glmpca_c5_ortho_preserves_predictor {N J L Ko Kf : ℕ}
    (U : Matrix (Fin N) (Fin L) ℚ) (V : Matrix (Fin J) (Fin L) ℚ)
    (A : Matrix (Fin J) (Fin Ko) ℚ) (X : Matrix (Fin N) (Fin Ko) ℚ)
    (G : Option (Matrix (Fin N) (Fin Kf) ℚ)) (Z : Matrix (Fin J) (Fin Kf) ℚ)
    (bx : Matrix (Fin Ko) (Fin L) ℚ) (bz : Matrix (Fin Kf) (Fin L) ℚ)
    (sU : Matrix (Fin J) (Fin L) ℚ) (d : Fin L → ℚ)
    (Qt : Matrix (Fin L) (Fin L) ℚ) (o : Equiv.Perm (Fin L))
    (hsvd : orthoLres V Z bz G = sU * Matrix.diagonal d * Qt) :
    (ortho U V A X G Z bx bz sU d Qt o).loadings *
        ((ortho U V A X G Z bx bz sU d Qt o).factors)ᵀ +
      (ortho U V A X G Z bx bz sU d Qt o).coefX * Xᵀ +
      optZterm (ortho U V A X G Z bx bz sU d Qt o).coefZ Z =
      V * Uᵀ + A * Xᵀ + optZterm G Z := by
  have key : (sU.submatrix id ⇑o) *
      (((U - X * bx) * Qtᵀ * Matrix.diagonal d).submatrix id ⇑o)ᵀ
      = orthoLres V Z bz G * (U - X * bx)ᵀ := by
    rw [Matrix.transpose_submatrix, Matrix.submatrix_mul_equiv,
      Matrix.submatrix_id_id, Matrix.transpose_mul, Matrix.transpose_mul,
      Matrix.diagonal_transpose, Matrix.transpose_transpose, hsvd,
      Matrix.mul_assoc, Matrix.mul_assoc]
  simp only [ortho]
  rw [key]
  cases hG2 : orthoGCoerce G with
  | none =>
    have hopt : optZterm G Z = 0 := by
      cases G with
      | none => rfl
      | some g =>
        by_cases h0 : g = 0
        · subst h0
          simp [optZterm]
        · exact absurd hG2 (by simp [orthoGCoerce, h0])
    rw [hopt]
    simp only [orthoLres, hG2, optZterm]
    simp only [Matrix.transpose_sub, Matrix.transpose_mul, Matrix.mul_sub,
      Matrix.add_mul, Matrix.mul_assoc]
    abel
  | some g =>
    cases G with
    | none => simp [orthoGCoerce] at hG2
    | some gin =>
      by_cases h0 : gin = 0
      · simp [orthoGCoerce, h0] at hG2
      · have hg : gin = g := by simpa [orthoGCoerce, h0] using hG2
        subst hg
        simp only [orthoLres, hG2, optZterm]
        simp only [Matrix.transpose_add, Matrix.transpose_sub,
          Matrix.transpose_mul, Matrix.transpose_transpose, Matrix.mul_add,
          Matrix.mul_sub, Matrix.add_mul, Matrix.sub_mul, Matrix.mul_assoc]
        abel

/-- Witness for C5 at a concrete input (all blocks 1x1, `G` present and
nonzero, trivial regressions, SVD `3 = 1 * 3 * 1`, identity reordering). -/
theorem glmpca_c5_ortho_preserves_predictor_witness :
    (ortho !![(2:ℚ)] !![3] !![1] !![1] (some !![1]) !![1] !![0] !![0] !![1]
        ![3] !![1] (Equiv.refl (Fin 1))).loadings *
        ((ortho !![(2:ℚ)] !![3] !![1] !![1] (some !![1]) !![1] !![0] !![0] !![1]
          ![3] !![1] (Equiv.refl (Fin 1))).factors)ᵀ +
      (ortho !![(2:ℚ)] !![3] !![1] !![1] (some !![1]) !![1] !![0] !![0] !![1]
        ![3] !![1] (Equiv.refl (Fin 1))).coefX * (!![(1:ℚ)])ᵀ +
      optZterm (ortho !![(2:ℚ)] !![3] !![1] !![1] (some !![1]) !![1] !![0] !![0] !![1]
        ![3] !![1] (Equiv.refl (Fin 1))).coefZ !![1] =
      !![(3:ℚ)] * (!![(2:ℚ)])ᵀ + !![1] * (!![(1:ℚ)])ᵀ +
        optZterm (some !![(1:ℚ)]) !![1] :=
  glmpca_c5_ortho_preserves_predictor !![2] !![3] !![1] !![1] (some !![1]) !![1]
    !![0] !![0] !![1] ![3] !![1] (Equiv.refl (Fin 1)) (by
      have hne : (!![(1:ℚ)] : Matrix (Fin 1) (Fin 1) ℚ) ≠ 0 := by
        intro h
        have h00 := congrFun (congrFun h 0) 0
        simp at h00
      ext i j
      fin_cases i
      fin_cases j
      simp [orthoLres, orthoGCoerce, hne, Matrix.mul_apply, Fin.sum_univ_one,
        Matrix.vecMul, Matrix.dotProduct, Matrix.diagonal_apply_eq])

/-- The trace recorded up to iteration `m`, extended by the deviance of
iteration `m`, is the trace recorded up to iteration `m + 1`. -/
theorem revmap_cons {S : Type} (step : S → S) (devf : S → ℚ) (s0 : S) (m : ℕ) :
    devf (step^[m] s0) :: ((List.range m).map (devSeq step devf s0)).reverse
      = ((List.range (m + 1)).map (devSeq step devf s0)).reverse := by
  rw [List.range_succ, List.map_append, List.reverse_append]
  rfl

/-- The head of the reversed trace of the first `m` iterations is `dev[m-1]`. -/
theorem revmap_headI {S : Type} (step : S → S) (devf : S → ℚ) (s0 : S) (m : ℕ)
    (hm : 1 ≤ m) :
    (((List.range m).map (devSeq step devf s0)).reverse).headI
      = devSeq step devf s0 (m - 1) := by
  obtain ⟨k, rfl⟩ : ∃ k, m = k + 1 := ⟨m - 1, by omega⟩
  rw [List.range_succ, List.map_append, List.reverse_append]
  simp

/-- The loop's break test at iteration `m` (on `acc.length` and `acc.headI`)
is exactly `stopCond` on the recorded deviance sequence. -/
theorem loop_cond_iff {S : Type} (step : S → S) (devf : S → ℚ) (s0 : S)
    (eps : ℚ) (m : ℕ) :
    (4 < (((List.range m).map (devSeq step devf s0)).reverse).length ∧
      |devf (step^[m] s0) - (((List.range m).map (devSeq step devf s0)).reverse).headI| /
        (1/10 + |(((List.range m).map (devSeq step devf s0)).reverse).headI|) < eps)
      ↔ stopCond eps (devSeq step devf s0) m := by
  have hlen : (((List.range m).map (devSeq step devf s0)).reverse).length = m := by simp
  by_cases hm : 4 < m
  · have h1 : 1 ≤ m := by omega
    rw [hlen, revmap_headI step devf s0 m h1]
    exact Iff.rfl
  · rw [hlen]
    unfold stopCond
    constructor
    · rintro ⟨h4, _⟩
      exact absurd h4 hm
    · rintro ⟨h4, _⟩
      exact absurd h4 hm

/-- Invariant characterization of `fitLoopAux` runs that return `ok`,
relative to the iteration index `m` already reached: either the fuel runs
out after `n` more updating iterations none of which met the stop test, or
some iteration `T` in `[m, m+n)` met it, the trace ends with `dev[T]`, the
state is the one before iteration `T`'s update, and no earlier iteration
met the test. -/
theorem fitLoopAux_spec {S : Type} (step : S → S) (devf : S → ℚ)
    (finOK : ℚ → Bool) (eps : ℚ) (s0 : S) :
    ∀ (n m : ℕ) (s : S) (ds : List ℚ),
      fitLoopAux step devf finOK eps n (step^[m] s0)
          (((List.range m).map (devSeq step devf s0)).reverse) = Except.ok (s, ds) →
      (ds = (List.range (m + n)).map (devSeq step devf s0) ∧ s = step^[m + n] s0 ∧
        ∀ k, m ≤ k → k < m + n → ¬ stopCond eps (devSeq step devf s0) k) ∨
      (∃ T, m ≤ T ∧ T < m + n ∧
        ds = (List.range (T + 1)).map (devSeq step devf s0) ∧ s = step^[T] s0 ∧
        stopCond eps (devSeq step devf s0) T ∧
        ∀ k, m ≤ k → k < T → ¬ stopCond eps (devSeq step devf s0) k) := by
  intro n
  induction n with
  | zero =>
    intro m s ds h
    left
    simp only [fitLoopAux, List.reverse_reverse, Except.ok.injEq, Prod.mk.injEq] at h
    obtain ⟨hs, hds⟩ := h
    refine ⟨by rw [Nat.add_zero]; exact hds.symm, by rw [Nat.add_zero]; exact hs.symm, ?_⟩
    intro k hk1 hk2
    exact absurd hk2 (by omega)
  | succ n ih =>
    intro m s ds h
    simp only [fitLoopAux] at h
    split at h
    · exact Except.noConfusion h
    · split at h
      next hc =>
        simp only [Except.ok.injEq, Prod.mk.injEq] at h
        obtain ⟨hs, hds⟩ := h
        right
        refine ⟨m, le_refl m, by omega, ?_, hs.symm,
          (loop_cond_iff step devf s0 eps m).mp hc, ?_⟩
        · rw [← hds, revmap_cons, List.reverse_reverse]
        · intro k hk1 hk2
          exact absurd hk2 (by omega)
      next hc =>
        have hc' : ¬ stopCond eps (devSeq step devf s0) m :=
          fun hstop => hc ((loop_cond_iff step devf s0 eps m).mpr hstop)
        rw [revmap_cons,
          show step (step^[m] s0) = step^[m + 1] s0 from
            (Function.iterate_succ_apply' step m s0).symm] at h
        rcases ih (m + 1) s ds h with ⟨h1, h2, h3⟩ | ⟨T, hT1, hT2, h1, h2, h3, h4⟩
        · left
          have harith : m + 1 + n = m + (n + 1) := by omega
          refine ⟨harith ▸ h1, harith ▸ h2, ?_⟩
          intro k hk1 hk2
          rcases Nat.eq_or_lt_of_le hk1 with heq | hlt
          · exact heq ▸ hc'
          · exact h3 k hlt (by omega)
        · right
          refine ⟨T, by omega, by omega, h1, h2, h3, ?_⟩
          intro k hk1 hk2
          rcases Nat.eq_or_lt_of_le hk1 with heq | hlt
          · exact heq ▸ hc'
          · exact h4 k hlt hk2

/-- Claim C4: a run of `fit`'s loop that returns (no divergence error)
either ran all `maxiter` iterations — the trace records `dev[t]` for every
`t < maxiter`, the final state has all `maxiter` updates applied, and no
iteration met the stop test — or stopped at the first iteration `T` with
`T ≥ 5` (iterations `0..4` completed before it) and
`|dev[T]-dev[T-1]| / (0.1+|dev[T-1]|) < eps`; in that case the final state
is the one before iteration `T`'s update (the stopping iteration performs
no update) and the returned trace is truncated to exactly
`dev[0..T]`, including the final non-updating check iteration. -/
theorem glmpca_c4_convergence_stop {S : Type} (step : S → S) (devf : S → ℚ)
    (finOK : ℚ → Bool) (eps : ℚ) (maxiter : ℕ) (s0 : S) (s : S) (ds : List ℚ)
    (h : fitLoop step devf finOK eps maxiter s0 = Except.ok (s, ds)) :
    (ds = (List.range maxiter).map (devSeq step devf s0) ∧
      s = step^[maxiter] s0 ∧
      ∀ k, k < maxiter → ¬ stopCond eps (devSeq step devf s0) k) ∨
    (∃ T, T < maxiter ∧ ds = (List.range (T + 1)).map (devSeq step devf s0) ∧
      s = step^[T] s0 ∧ stopCond eps (devSeq step devf s0) T ∧
      ∀ k, k < T → ¬ stopCond eps (devSeq step devf s0) k) := by
  have h0 : fitLoopAux step devf finOK eps maxiter (step^[0] s0)
      (((List.range 0).map (devSeq step devf s0)).reverse) = Except.ok (s, ds) := h
  rcases fitLoopAux_spec step devf finOK eps s0 maxiter 0 s ds h0 with
    ⟨h1, h2, h3⟩ | ⟨T, _, hT2, h1, h2, h3, h4⟩
  · left
    exact ⟨by simpa using h1, by simpa using h2,
      fun k hk => h3 k (Nat.zero_le k) (by omega)⟩
  · right
    exact ⟨T, by omega, h1, h2, h3, fun k hk => h4 k (Nat.zero_le k) hk⟩

/-- Witness for C4 at a concrete run: constant deviance `0`, `eps = 1`,
`maxiter = 10`. The stop test first holds at iteration `5`, so the loop
returns the six-entry trace `dev[0..5]` and the state before iteration 5's
update. -/
theorem glmpca_c4_convergence_stop_witness :
    (([(0:ℚ),0,0,0,0,0] = (List.range 10).map (devSeq id id (0:ℚ)) ∧
      (0:ℚ) = id^[10] (0:ℚ) ∧
      ∀ k, k < 10 → ¬ stopCond 1 (devSeq id id (0:ℚ)) k) ∨
    (∃ T, T < 10 ∧
      ([(0:ℚ),0,0,0,0,0] = (List.range (T+1)).map (devSeq id id (0:ℚ))) ∧
      (0:ℚ) = id^[T] (0:ℚ) ∧ stopCond 1 (devSeq id id (0:ℚ)) T ∧
      ∀ k, k < T → ¬ stopCond 1 (devSeq id id (0:ℚ)) k)) :=
  glmpca_c4_convergence_stop id id (fun _ => true) 1 10 0 0 [0,0,0,0,0,0]
    (by norm_num [fitLoop, fitLoopAux])
